import Mathlib

/-!
Shallow embedding of `the_snake.py`: a snake game on a 640x480 pixel board
with 20-pixel cells.  Cells are pixel coordinates (multiples of `GRID_SIZE`),
modelled as pairs of integers; Python `%` on a positive modulus agrees with
`Int.emod`.  Randomness (`random.choice`, `random.randint`) is modelled by
explicit oracle parameters: the chosen direction is passed in, and
`randomize_position` consumes an explicit stream of candidate cells.
Fallible accesses (`positions[0]` on a possibly-empty list) return `Option`.
-/

abbrev POINTER := Int × Int

def SCREEN_WIDTH : Int := 640
def SCREEN_HEIGHT : Int := 480
def GRID_SIZE : Int := 20
def GRID_WIDTH : Int := SCREEN_WIDTH / GRID_SIZE
def GRID_HEIGHT : Int := SCREEN_HEIGHT / GRID_SIZE

def UP : POINTER := (0, -1)
def DOWN : POINTER := (0, 1)
def LEFT : POINTER := (-1, 0)
def RIGHT : POINTER := (1, 0)

def INITIAL_SPEED : Int := 10
def MIN_SPEED : Int := 5
def MAX_SPEED : Int := 20

def SCREEN_CENTER : POINTER := (SCREEN_WIDTH / 2, SCREEN_HEIGHT / 2)

/-- The list of the four direction constants, as in `choice([UP, DOWN, LEFT, RIGHT])`. -/
def directions : List POINTER := [UP, DOWN, LEFT, RIGHT]

/-- State of the `Snake` class: `length`, `positions`, `direction`,
`next_direction`, `last` (colour fields are irrelevant to the logic). -/
structure Snake where
  length : Nat
  positions : List POINTER
  direction : POINTER
  next_direction : Option POINTER
  last : Option POINTER
deriving Repr, DecidableEq

/-- `Snake.__init__`: length 1, body at the screen center, a randomly chosen
direction (the random choice is the parameter `d`), no pending direction, no
vacated cell. -/
def Snake.init (d : POINTER) : Snake :=
  { length := 1
    positions := [SCREEN_CENTER]
    direction := d
    next_direction := none
    last := none }

/-- `Snake.get_head_position`: `self.positions[0]`; `none` on an empty body. -/
def Snake.get_head_position (s : Snake) : Option POINTER :=
  s.positions.head?

/-- The new-head expression inside `Snake.move`:
`((x + dx*GRID_SIZE + SCREEN_WIDTH) % SCREEN_WIDTH,
  (y + dy*GRID_SIZE + SCREEN_HEIGHT) % SCREEN_HEIGHT)`. -/
def newHead (head dir : POINTER) : POINTER :=
  ((head.1 + dir.1 * GRID_SIZE + SCREEN_WIDTH) % SCREEN_WIDTH,
   (head.2 + dir.2 * GRID_SIZE + SCREEN_HEIGHT) % SCREEN_HEIGHT)

/-- The first two lines of `Snake.move`:
`if self.next_direction: self.direction = self.next_direction`
(note: `next_direction` is NOT cleared here; that is `update_direction`). -/
def Snake.applyNext (s : Snake) : Snake :=
  match s.next_direction with
  | some d => { s with direction := d }
  | none => s

/-- `Snake.move`: commit any pending direction; read the head (fails on an
empty body); insert the wrapped new head at index 0; if the list is now
longer than `length`, pop the last cell into `last`.  There is no
else-branch: when no pop happens, `last` keeps its previous value. -/
def Snake.move (s : Snake) : Option Snake := do
  let s1 := s.applyNext
  let head ← s1.positions.head?
  let ps := newHead head s1.direction :: s1.positions
  if ps.length > s1.length then
    pure { s1 with positions := ps.dropLast, last := ps.getLast? }
  else
    pure { s1 with positions := ps }

/-- `Snake.update_direction`: commit `next_direction` into `direction` and
clear it, when present. -/
def Snake.update_direction (s : Snake) : Snake :=
  match s.next_direction with
  | some d => { s with direction := d, next_direction := none }
  | none => s

/-- `Snake.reset`: length 1, body at the center, a fresh random direction
(parameter `d`), pending direction cleared.  Note the source does NOT reset
`self.last`. -/
def Snake.reset (s : Snake) (d : POINTER) : Snake :=
  { s with
    length := 1
    positions := [SCREEN_CENTER]
    direction := d
    next_direction := none }

/-- The inline `snake.length += 1` executed in `main` when the apple is
eaten (the spec calls this operation `grow()`). -/
def Snake.grow (s : Snake) : Snake :=
  { s with length := s.length + 1 }

/-- The inline self-collision test in `main`:
`snake.get_head_position() in snake.positions[1:]`. -/
def selfCollision (s : Snake) : Option Bool :=
  s.get_head_position.map (fun h => decide (h ∈ s.positions.tail))

/-- The key events `handle_keys` distinguishes.  `quit` covers both the
window-close event and Escape (both raise `SystemExit`); `other` is any
other key, which is ignored. -/
inductive KeyEvent where
  | quit
  | up
  | down
  | left
  | right
  | plus
  | equals
  | minus
  | other
deriving Repr, DecidableEq

/-- The `direction_keys` dictionary lookup. -/
def keyDir : KeyEvent → Option POINTER
  | .up => some UP
  | .down => some DOWN
  | .left => some LEFT
  | .right => some RIGHT
  | _ => none

/-- The body of the event loop in `handle_keys` for one event: `quit` raises
`SystemExit` (modelled as `none`); a direction key is stored into
`next_direction` unless it sums with the current committed `direction` to
`(0, 0)`; `+`/`=` and `-` adjust the speed with clamping. -/
def processKey (s : Snake) (speed : Int) (e : KeyEvent) : Option (Snake × Int) :=
  match e with
  | .quit => none
  | _ =>
    match keyDir e with
    | some nd =>
        if (nd.1 + s.direction.1, nd.2 + s.direction.2) ≠ ((0 : Int), (0 : Int)) then
          some ({ s with next_direction := some nd }, speed)
        else
          some (s, speed)
    | none =>
        match e with
        | .plus => some (s, min (speed + 1) MAX_SPEED)
        | .equals => some (s, min (speed + 1) MAX_SPEED)
        | .minus => some (s, max (speed - 1) MIN_SPEED)
        | _ => some (s, speed)

/-- `handle_keys`: fold `processKey` over the drained event queue; returns
the new speed (the snake is mutated through `next_direction`). -/
def handle_keys (s : Snake) (speed : Int) : List KeyEvent → Option (Snake × Int)
  | [] => some (s, speed)
  | e :: rest => (processKey s speed e).bind (fun p => handle_keys p.1 p.2 rest)

/-- `Apple.randomize_position`: repeatedly draw a random cell
`(randint(0, GRID_WIDTH - 1) * GRID_SIZE, randint(0, GRID_HEIGHT - 1) * GRID_SIZE)`
until one is not in `occupied`.  The draws are the oracle stream `samples`;
`none` models the stream running out before a free cell appears. -/
def randomize_position (occupied : List POINTER) (samples : List POINTER) : Option POINTER :=
  samples.find? (fun p => !(decide (p ∈ occupied)))

/-- State owned by `main`: the snake, the apple's position, the speed and
the record length.  `staleOccupied` models the Python reference structure:
`Apple.__init__` stores `self.occupied_positions = snake.positions`, a
reference to the very list object that `move` mutates in place, so the
apple's occupied set tracks the live body — that is `staleOccupied = none`.
`Snake.reset` rebinds `self.positions` to a fresh list, after which the
apple's reference is permanently detached, frozen at the pre-reset body
value: `staleOccupied = some frozen`. -/
structure GameState where
  snake : Snake
  applePos : POINTER
  staleOccupied : Option (List POINTER)
  speed : Int
  record_length : Nat
deriving Repr, DecidableEq

/-- The value of the list `self.occupied_positions` currently refers to. -/
def occupiedOf (g : GameState) : List POINTER :=
  g.staleOccupied.getD g.snake.positions

/-- Oracle inputs for one loop iteration: the drained key events, and the
random draws consumed by the (at most two) `randomize_position` calls and by
`choice` inside `reset`. -/
structure TickIn where
  events : List KeyEvent
  eatSamples : List POINTER
  resetDir : POINTER
  resetSamples : List POINTER
deriving Repr

/-- Lines `speed = handle_keys(...)`, `snake.update_direction()`,
`snake.move()` of the loop body. -/
def postMove (g : GameState) (i : TickIn) : Option GameState := do
  let (s1, sp) ← handle_keys g.snake g.speed i.events
  let s2 ← s1.update_direction.move
  pure { g with snake := s2, speed := sp }

/-- The apple-eating branch: if the head is on the apple, increment
`length`, relocate the apple against the list `occupied_positions` refers
to, and raise the record when the new length beats it. -/
def eatStep (g : GameState) (i : TickIn) : Option GameState := do
  let head ← g.snake.get_head_position
  if head = g.applePos then
    let s := g.snake.grow
    let p ← randomize_position (occupiedOf g) i.eatSamples
    let r := if s.length > g.record_length then s.length else g.record_length
    pure { g with snake := s, applePos := p, record_length := r }
  else
    pure g

/-- The self-collision branch: reset the snake, then relocate the apple.
The relocation runs after `reset` has rebound `snake.positions`, so it
checks against the list the apple still references: the pre-reset body
(or the body frozen by an earlier reset), never the fresh one-cell body. -/
def collideStep (g : GameState) (i : TickIn) : Option GameState := do
  let c ← selfCollision g.snake
  if c then
    let frozen := occupiedOf g
    let p ← randomize_position frozen i.resetSamples
    pure { g with snake := g.snake.reset i.resetDir, applePos := p,
                  staleOccupied := some frozen }
  else
    pure g

/-- One iteration of the `while True` loop in `main` (drawing omitted). -/
def tick (g : GameState) (i : TickIn) : Option GameState := do
  let g1 ← postMove g i
  let g2 ← eatStep g1 i
  collideStep g2 i

/-- Iterated loop body. -/
def run (g : GameState) : List TickIn → Option GameState
  | [] => some g
  | i :: rest => (tick g i).bind (fun g1 => run g1 rest)

/-- The setup in `main`: fresh snake (random direction `d`), apple placed
avoiding the snake's one-cell body using draws `samples`, initial speed,
record length 1.  The apple starts aliased to the snake's body list. -/
def initGame (d : POINTER) (samples : List POINTER) : Option GameState :=
  (randomize_position (Snake.init d).positions samples).map (fun p =>
    { snake := Snake.init d, applePos := p, staleOccupied := none
      speed := INITIAL_SPEED, record_length := 1 })

/-- `n` consecutive `move()` calls. -/
def moveN (n : Nat) (s : Snake) : Option Snake :=
  match n with
  | 0 => some s
  | n + 1 => s.move.bind (moveN n)

/-- Whether the tick from `g` under inputs `i` takes the apple-eating
branch: the post-move head equals the apple position. -/
def ateB (g : GameState) (i : TickIn) : Bool :=
  ((postMove g i).map
    (fun g1 => decide (g1.snake.get_head_position = some g1.applePos))).getD false

/-- Whether the tick from `g` under inputs `i` takes the reset branch. -/
def collidedB (g : GameState) (i : TickIn) : Bool :=
  (((postMove g i).bind (fun g1 => eatStep g1 i)).bind
    (fun g2 => selfCollision g2.snake)).getD false

/-- The snake length reached during the tick, after the eat-branch
increment (this is the length the record update compares against). -/
def grownLength (g : GameState) (i : TickIn) : Nat :=
  if ateB g i then g.snake.length + 1 else g.snake.length

/-- Running maximum of `grownLength` along a run, starting from `acc`. -/
def traceMax (g : GameState) (acc : Nat) : List TickIn → Option Nat
  | [] => some acc
  | i :: rest => (tick g i).bind (fun g1 => traceMax g1 (max acc (grownLength g i)) rest)

/-- The apple sits on a cell of the snake's body. -/
def foodOnSnake (g : GameState) : Bool :=
  decide (g.applePos ∈ g.snake.positions)

/-- A snake one tick after growth: the body has not yet caught up with
`length`, and `last` still holds the cell vacated on the previous move. -/
def snakeGrown : Snake :=
  { length := 2
    positions := [(320, 240)]
    direction := RIGHT
    next_direction := none
    last := some (300, 240) }

/-- A snake whose head cell coincides with its second segment. -/
def snakeOverlap : Snake :=
  { length := 2
    positions := [(320, 240), (320, 240)]
    direction := RIGHT
    next_direction := none
    last := none }

/-- A snake mid-game with a pending direction and a vacated cell recorded. -/
def snakeLooped : Snake :=
  { length := 3
    positions := [(100, 100), (120, 100), (140, 100)]
    direction := LEFT
    next_direction := some UP
    last := some (160, 100) }

/-- A concrete mid-run game state: one-cell snake at the center heading
RIGHT, apple far away at the origin, record 1, apple still aliased. -/
def gameA : GameState :=
  { snake := Snake.init RIGHT
    applePos := (0, 0)
    staleOccupied := none
    speed := INITIAL_SPEED
    record_length := 1 }

/-- A tick with no input events and no random draws needed. -/
def quietTick : TickIn :=
  { events := [], eatSamples := [], resetDir := RIGHT, resetSamples := [] }

/-- The state `gameA` reaches after one quiet tick: the snake moved one
cell RIGHT, vacating the center; nothing else changed. -/
def gameA1 : GameState :=
  { snake :=
      { length := 1
        positions := [(340, 240)]
        direction := RIGHT
        next_direction := none
        last := some (320, 240) }
    applePos := (0, 0)
    staleOccupied := none
    speed := INITIAL_SPEED
    record_length := 1 }

/-- The tick inputs that make `gameA`-style setup eat: the apple sits one
cell to the right of the head, and the relocation draw lands at (360, 240). -/
def eatTick : TickIn :=
  { events := [], eatSamples := [(360, 240)], resetDir := RIGHT, resetSamples := [] }

/-- The state just after an eating tick: the body (one cell) is one behind
the target `length` 2, and the apple has been relocated far away. -/
def gameB : GameState :=
  { snake :=
      { length := 2
        positions := [(340, 240)]
        direction := RIGHT
        next_direction := none
        last := some (320, 240) }
    applePos := (0, 0)
    staleOccupied := none
    speed := INITIAL_SPEED
    record_length := 2 }

/-- The state `gameB` reaches after one quiet tick: the move inserts the
new head with no pop, so the body catches up with `length`. -/
def gameB1 : GameState :=
  { snake :=
      { length := 2
        positions := [(360, 240), (340, 240)]
        direction := RIGHT
        next_direction := none
        last := some (320, 240) }
    applePos := (0, 0)
    staleOccupied := none
    speed := INITIAL_SPEED
    record_length := 2 }

/-- A concrete input schedule for `main` that grows the snake to length 5
(four apples eaten along the center row), steers it through UP, LEFT, DOWN
into its own body, and lets the post-reset apple draw land on the screen
center — the cell the freshly reset snake occupies. -/
def bugInputs : List TickIn :=
  [ { events := [], eatSamples := [(360, 240)], resetDir := RIGHT, resetSamples := [] },
    { events := [], eatSamples := [(380, 240)], resetDir := RIGHT, resetSamples := [] },
    { events := [], eatSamples := [(400, 240)], resetDir := RIGHT, resetSamples := [] },
    { events := [], eatSamples := [(0, 0)], resetDir := RIGHT, resetSamples := [] },
    { events := [KeyEvent.up], eatSamples := [], resetDir := RIGHT, resetSamples := [] },
    { events := [KeyEvent.left], eatSamples := [], resetDir := RIGHT, resetSamples := [] },
    { events := [KeyEvent.down], eatSamples := [], resetDir := RIGHT,
      resetSamples := [(320, 240)] } ]

lemma Snake.applyNext_eq (s : Snake) :
    s.applyNext = { s with direction := s.next_direction.getD s.direction } := by
  obtain ⟨len, pos, dir, nd, last⟩ := s
  cases nd <;> rfl

lemma emod_props (a m c : Int) (hm : 0 < m) (hc : c ∣ a) (hcm : c ∣ m) :
    0 ≤ a % m ∧ a % m < m ∧ c ∣ a % m := by
  refine ⟨Int.emod_nonneg a (ne_of_gt hm), Int.emod_lt_of_pos a hm, ?_⟩
  have h1 : a % m % c = a % c := Int.emod_emod_of_dvd a hcm
  have h2 : a % c = 0 := Int.emod_eq_zero_of_dvd hc
  exact Int.dvd_of_emod_eq_zero (h1.trans h2)

/-- Claim C7: for every cell whose coordinates are multiples of the cell
size and lie within the board, and every direction delta, the wrapped
new-head computation returns a cell within board bounds — each axis
non-negative and strictly below the board extent — and the coordinates stay
multiples of the cell size. -/
theorem newHead_in_bounds (x y : Int) (d : POINTER) (hd : d ∈ directions)
    (hx : GRID_SIZE ∣ x) (hy : GRID_SIZE ∣ y)
    (hx0 : 0 ≤ x) (hx1 : x < SCREEN_WIDTH) (hy0 : 0 ≤ y) (hy1 : y < SCREEN_HEIGHT) :
    0 ≤ (newHead (x, y) d).1 ∧ (newHead (x, y) d).1 < SCREEN_WIDTH ∧
    GRID_SIZE ∣ (newHead (x, y) d).1 ∧
    0 ≤ (newHead (x, y) d).2 ∧ (newHead (x, y) d).2 < SCREEN_HEIGHT ∧
    GRID_SIZE ∣ (newHead (x, y) d).2 := by
  have hdx : GRID_SIZE ∣ d.1 * GRID_SIZE := dvd_mul_left GRID_SIZE d.1
  have hdy : GRID_SIZE ∣ d.2 * GRID_SIZE := dvd_mul_left GRID_SIZE d.2
  have hW : GRID_SIZE ∣ SCREEN_WIDTH := ⟨32, rfl⟩
  have hH : GRID_SIZE ∣ SCREEN_HEIGHT := ⟨24, rfl⟩
  have hax : GRID_SIZE ∣ x + d.1 * GRID_SIZE + SCREEN_WIDTH :=
    dvd_add (dvd_add hx hdx) hW
  have hay : GRID_SIZE ∣ y + d.2 * GRID_SIZE + SCREEN_HEIGHT :=
    dvd_add (dvd_add hy hdy) hH
  have hWpos : (0 : Int) < SCREEN_WIDTH := by norm_num [SCREEN_WIDTH]
  have hHpos : (0 : Int) < SCREEN_HEIGHT := by norm_num [SCREEN_HEIGHT]
  obtain ⟨p1, p2, p3⟩ :=
    emod_props (x + d.1 * GRID_SIZE + SCREEN_WIDTH) SCREEN_WIDTH GRID_SIZE hWpos hax hW
  obtain ⟨q1, q2, q3⟩ :=
    emod_props (y + d.2 * GRID_SIZE + SCREEN_HEIGHT) SCREEN_HEIGHT GRID_SIZE hHpos hay hH
  exact ⟨p1, p2, p3, q1, q2, q3⟩

/-- Witness for C7 at the center cell moving RIGHT. -/
theorem newHead_in_bounds_witness :
    (RIGHT ∈ directions ∧ GRID_SIZE ∣ (320 : Int) ∧ GRID_SIZE ∣ (240 : Int) ∧
      (0 : Int) ≤ 320 ∧ (320 : Int) < SCREEN_WIDTH ∧
      (0 : Int) ≤ 240 ∧ (240 : Int) < SCREEN_HEIGHT) ∧
    (0 ≤ (newHead (320, 240) RIGHT).1 ∧ (newHead (320, 240) RIGHT).1 < SCREEN_WIDTH ∧
      GRID_SIZE ∣ (newHead (320, 240) RIGHT).1 ∧
      0 ≤ (newHead (320, 240) RIGHT).2 ∧ (newHead (320, 240) RIGHT).2 < SCREEN_HEIGHT ∧
      GRID_SIZE ∣ (newHead (320, 240) RIGHT).2) :=
  ⟨⟨by decide, by decide, by decide, by decide, by decide, by decide, by decide⟩,
    newHead_in_bounds 320 240 RIGHT (by decide) (by decide) (by decide)
      (by decide) (by decide) (by decide) (by decide)⟩

/-- Claim C8: on the 32x24-cell board, a snake starting as the single cell
at the pixel center (320, 240) — grid cell (16, 12) — that moves RIGHT 31
times with no growth has its head at pixel (300, 240) — grid cell (15, 12).
The wrap happens exactly once: after move 15 the head is on the rightmost
column (620, 240), and move 16 re-enters at the left edge (0, 240). -/
theorem head_after_31_right_moves :
    (Snake.init RIGHT).positions = [((16 : Int) * GRID_SIZE, (12 : Int) * GRID_SIZE)] ∧
    (moveN 15 (Snake.init RIGHT)).bind Snake.get_head_position = some (620, 240) ∧
    (moveN 16 (Snake.init RIGHT)).bind Snake.get_head_position = some (0, 240) ∧
    (moveN 31 (Snake.init RIGHT)).bind Snake.get_head_position = some (300, 240) ∧
    ((300 : Int), (240 : Int)) = ((15 : Int) * GRID_SIZE, (12 : Int) * GRID_SIZE) := by
  decide

/-- Claim C5: the self-collision test is true iff the head cell occurs among
the non-head segments, for every snake with non-empty body; for a freshly
reset snake of length 1 it is false. -/
theorem selfCollision_iff (s : Snake) (h0 : POINTER) (t0 : List POINTER)
    (hp : s.positions = h0 :: t0) (s2 : Snake) (d : POINTER) :
    (selfCollision s = some true ↔ h0 ∈ t0) ∧
    selfCollision (s2.reset d) = some false := by
  constructor
  · simp [selfCollision, Snake.get_head_position, hp]
  · simp [selfCollision, Snake.reset, Snake.get_head_position]

/-- Witness for C5: a two-cell snake whose head overlaps its second
segment collides; a freshly reset snake does not. -/
theorem selfCollision_iff_witness :
    snakeOverlap.positions = ((320 : Int), (240 : Int)) :: [((320 : Int), (240 : Int))] ∧
    ((selfCollision snakeOverlap = some true ↔
        ((320 : Int), (240 : Int)) ∈ [((320 : Int), (240 : Int))]) ∧
      selfCollision (snakeLooped.reset RIGHT) = some false) :=
  ⟨by decide, selfCollision_iff snakeOverlap (320, 240) [(320, 240)] (by decide)
    snakeLooped RIGHT⟩

lemma move_eq (s : Snake) (h0 : POINTER) (t0 : List POINTER)
    (hp : s.positions = h0 :: t0) :
    s.move = some (if t0.length + 2 > s.length then
      { s with direction := s.next_direction.getD s.direction
               positions :=
                 (newHead h0 (s.next_direction.getD s.direction) :: h0 :: t0).dropLast
               last :=
                 (newHead h0 (s.next_direction.getD s.direction) :: h0 :: t0).getLast? }
      else
      { s with direction := s.next_direction.getD s.direction
               positions := newHead h0 (s.next_direction.getD s.direction) :: h0 :: t0 }) := by
  by_cases hc : t0.length + 2 > s.length
  · rw [if_pos hc]
    simp only [Snake.move, Snake.applyNext_eq, hp, List.head?_cons,
      Option.bind_eq_bind, Option.some_bind, List.length_cons]
    rw [if_pos (by omega)]
    rfl
  · rw [if_neg hc]
    simp only [Snake.move, Snake.applyNext_eq, hp, List.head?_cons,
      Option.bind_eq_bind, Option.some_bind, List.length_cons]
    rw [if_neg (by omega)]
    rfl

lemma move_nil (s : Snake) (hp : s.positions = []) : s.move = none := by
  simp [Snake.move, Snake.applyNext_eq, hp]

/-- Counterexample to claim C3: on a move with no pop (growth just
occurred: the one-cell body is below the target length 2), `last` does not
become absent — `Snake.move` has no else-branch clearing it, so it keeps
the stale cell `(300, 240)` vacated on an earlier move. -/
theorem move_keeps_stale_last :
    snakeGrown.move.map (fun s => (s.positions, s.last)) =
      some ([(340, 240), (320, 240)], some (300, 240)) ∧
    snakeGrown.move.map Snake.last ≠ some none := by
  decide

/-- Claim C3 as amended: for every snake state with non-empty body,
`move()` prepends the wrapped new head (computed from the pending direction
when one is queued, else the committed one); if the resulting body length
exceeds `length` it pops the last element and records it as `lastTail`;
otherwise `lastTail` is left unchanged (NOT cleared, contrary to the
original claim); and `move()` never changes `length`. -/
theorem move_behaviour (s : Snake) (h0 : POINTER) (t0 : List POINTER)
    (hp : s.positions = h0 :: t0) :
    ∃ s2, s.move = some s2 ∧ s2.length = s.length ∧
      s2.positions.head? = some (newHead h0 (s.next_direction.getD s.direction)) ∧
      (if t0.length + 2 > s.length then
        s2.positions =
            (newHead h0 (s.next_direction.getD s.direction) :: h0 :: t0).dropLast ∧
          s2.last = (h0 :: t0).getLast?
       else
        s2.positions = newHead h0 (s.next_direction.getD s.direction) :: h0 :: t0 ∧
          s2.last = s.last) := by
  cases hmv : s.move with
  | none =>
    exfalso
    simp only [Snake.move, Snake.applyNext_eq, hp, List.head?_cons,
      Option.bind_eq_bind, Option.some_bind] at hmv
    split at hmv <;> simp at hmv
  | some s2 =>
    refine ⟨s2, rfl, ?_⟩
    simp only [Snake.move, Snake.applyNext_eq, hp, List.head?_cons,
      Option.bind_eq_bind, Option.some_bind, List.length_cons] at hmv
    split at hmv
    case isTrue hc =>
      simp only [pure, Option.some.injEq] at hmv
      subst hmv
      rw [if_pos (by omega)]
      refine ⟨rfl, ?_, ?_, ?_⟩
      · simp [List.dropLast_cons₂]
      · simp
      · simp [List.getLast?_cons_cons]
    case isFalse hc =>
      simp only [pure, Option.some.injEq] at hmv
      subst hmv
      rw [if_neg (by omega)]
      exact ⟨rfl, by simp, by simp, rfl⟩

/-- Witness for the amended C3 at a three-cell snake with a pending UP
request: the move pops the tail into `lastTail`. -/
theorem move_behaviour_witness :
    snakeLooped.positions = ((100 : Int), (100 : Int)) :: [((120 : Int), (100 : Int)), ((140 : Int), (100 : Int))] ∧
    ∃ s2, snakeLooped.move = some s2 ∧ s2.length = snakeLooped.length ∧
      s2.positions.head? =
        some (newHead (100, 100) (snakeLooped.next_direction.getD snakeLooped.direction)) ∧
      (if ([((120 : Int), (100 : Int)), ((140 : Int), (100 : Int))] : List POINTER).length + 2 > snakeLooped.length then
        s2.positions =
            (newHead (100, 100) (snakeLooped.next_direction.getD snakeLooped.direction) ::
              (100, 100) :: [(120, 100), (140, 100)]).dropLast ∧
          s2.last = (((100 : Int), (100 : Int)) :: [((120 : Int), (100 : Int)), ((140 : Int), (100 : Int))]).getLast?
       else
        s2.positions =
            newHead (100, 100) (snakeLooped.next_direction.getD snakeLooped.direction) ::
              (100, 100) :: [(120, 100), (140, 100)] ∧
          s2.last = snakeLooped.last) :=
  ⟨by decide, move_behaviour snakeLooped (100, 100) [(120, 100), (140, 100)] (by decide)⟩

/-- Counterexample to claim C4: `Snake.reset` does not clear `last`: on a
snake whose `last` is `(160, 100)`, the reset snake still carries
`last = some (160, 100)`, so `lastTail` is not absent after `reset()`. -/
theorem reset_keeps_last :
    (snakeLooped.reset RIGHT).last = some (160, 100) ∧
    (snakeLooped.reset RIGHT).last ≠ none := by
  decide

/-- Claim C4 as amended: `reset()` establishes `length = 1`,
`body = [centerCell]`, a direction among the four unit directions (the
random choice `d` is drawn from them), `pendingDirection` absent — but
`lastTail` is left unchanged (NOT cleared, contrary to the original
claim); and the loop's reset transition (`collideStep`) leaves
`record_length` unchanged. -/
theorem reset_spec (s : Snake) (d : POINTER) (hd : d ∈ directions) :
    (s.reset d).length = 1 ∧
    (s.reset d).positions = [SCREEN_CENTER] ∧
    (s.reset d).direction ∈ directions ∧
    (s.reset d).next_direction = none ∧
    (s.reset d).last = s.last ∧
    (∀ g i g2, collideStep g i = some g2 → g2.record_length = g.record_length) := by
  refine ⟨rfl, rfl, by simpa [Snake.reset] using hd, rfl, rfl, ?_⟩
  intro g i g2 h
  cases hc : selfCollision g.snake with
  | none => simp [collideStep, hc] at h
  | some c =>
    simp only [collideStep, hc, Option.bind_eq_bind, Option.some_bind] at h
    cases c with
    | false =>
      rw [if_neg (by simp)] at h
      simp only [Option.pure_def, Option.some.injEq] at h
      subst h
      rfl
    | true =>
      rw [if_pos rfl] at h
      cases hr : randomize_position (occupiedOf g) i.resetSamples with
      | none => rw [hr] at h; simp at h
      | some p =>
        rw [hr] at h
        simp only [Option.bind_eq_bind, Option.some_bind, pure,
          Option.some.injEq] at h
        subst h
        rfl

/-- Witness for the amended C4 at a mid-game snake and direction RIGHT. -/
theorem reset_spec_witness :
    RIGHT ∈ directions ∧
    ((snakeLooped.reset RIGHT).length = 1 ∧
      (snakeLooped.reset RIGHT).positions = [SCREEN_CENTER] ∧
      (snakeLooped.reset RIGHT).direction ∈ directions ∧
      (snakeLooped.reset RIGHT).next_direction = none ∧
      (snakeLooped.reset RIGHT).last = snakeLooped.last ∧
      (∀ g i g2, collideStep g i = some g2 → g2.record_length = g.record_length)) :=
  ⟨by decide, reset_spec snakeLooped RIGHT (by decide)⟩

/-- Claim C10: the snake's body list is never empty in any state reachable
by construction, `move()`, the eat-branch `grow`, or `reset()` — each of
them preserves (or establishes) a non-empty body and `length ≥ 1` — so
reading `body[0]` (`get_head_position`, and the head access inside `move`)
is total on such states. -/
theorem body_never_empty :
    (∀ d, (Snake.init d).positions ≠ [] ∧ 1 ≤ (Snake.init d).length) ∧
    (∀ s : Snake, s.positions ≠ [] → s.get_head_position.isSome ∧ s.move.isSome) ∧
    (∀ s s2 : Snake, s.move = some s2 → s2.positions ≠ [] ∧ s2.length = s.length) ∧
    (∀ s : Snake, s.grow.positions = s.positions ∧ s.grow.length = s.length + 1) ∧
    (∀ (s : Snake) (d : POINTER), (s.reset d).positions ≠ [] ∧ (s.reset d).length = 1) := by
  refine ⟨?_, ?_, ?_, ?_, ?_⟩
  · intro d
    exact ⟨by simp [Snake.init], le_refl 1⟩
  · intro s hs
    cases hp : s.positions with
    | nil => exact absurd hp hs
    | cons h0 t0 =>
      refine ⟨by simp [Snake.get_head_position, hp], ?_⟩
      rw [move_eq s h0 t0 hp]
      simp
  · intro s s2 h
    cases hp : s.positions with
    | nil => rw [move_nil s hp] at h; exact absurd h (by simp)
    | cons h0 t0 =>
      rw [move_eq s h0 t0 hp] at h
      simp only [Option.some.injEq] at h
      subst h
      by_cases hc : t0.length + 2 > s.length
      · rw [if_pos hc]
        exact ⟨by simp [List.dropLast_cons₂], rfl⟩
      · rw [if_neg hc]
        exact ⟨by simp, rfl⟩
  · intro s
    exact ⟨rfl, rfl⟩
  · intro s d
    exact ⟨by simp [Snake.reset], rfl⟩

/-- Witness for C10 at a concrete one-cell snake. -/
theorem body_never_empty_witness :
    snakeGrown.positions ≠ [] ∧
    (snakeGrown.get_head_position.isSome ∧ snakeGrown.move.isSome) :=
  ⟨by decide, body_never_empty.2.1 snakeGrown (by decide)⟩

lemma processKey_preserves (s : Snake) (sp : Int) (e : KeyEvent) (p : Snake × Int)
    (h : processKey s sp e = some p) :
    p.1.positions = s.positions ∧ p.1.length = s.length ∧
    p.1.direction = s.direction ∧ p.1.last = s.last := by
  cases e <;> simp only [processKey, keyDir] at h
  case quit => exact absurd h (by simp)
  case up =>
    split at h <;> (simp only [Option.some.injEq] at h; subst h; exact ⟨rfl, rfl, rfl, rfl⟩)
  case down =>
    split at h <;> (simp only [Option.some.injEq] at h; subst h; exact ⟨rfl, rfl, rfl, rfl⟩)
  case left =>
    split at h <;> (simp only [Option.some.injEq] at h; subst h; exact ⟨rfl, rfl, rfl, rfl⟩)
  case right =>
    split at h <;> (simp only [Option.some.injEq] at h; subst h; exact ⟨rfl, rfl, rfl, rfl⟩)
  case plus =>
    simp only [Option.some.injEq] at h; subst h; exact ⟨rfl, rfl, rfl, rfl⟩
  case equals =>
    simp only [Option.some.injEq] at h; subst h; exact ⟨rfl, rfl, rfl, rfl⟩
  case minus =>
    simp only [Option.some.injEq] at h; subst h; exact ⟨rfl, rfl, rfl, rfl⟩
  case other =>
    simp only [Option.some.injEq] at h; subst h; exact ⟨rfl, rfl, rfl, rfl⟩

lemma handle_keys_preserves (evs : List KeyEvent) :
    ∀ (s : Snake) (sp : Int) (s1 : Snake) (sp1 : Int),
      handle_keys s sp evs = some (s1, sp1) →
      s1.positions = s.positions ∧ s1.length = s.length ∧
      s1.direction = s.direction ∧ s1.last = s.last := by
  induction evs with
  | nil =>
    intro s sp s1 sp1 h
    simp only [handle_keys, Option.some.injEq, Prod.mk.injEq] at h
    obtain ⟨h1, h2⟩ := h
    subst h1
    exact ⟨rfl, rfl, rfl, rfl⟩
  | cons e rest ih =>
    intro s sp s1 sp1 h
    simp only [handle_keys, Option.bind_eq_bind] at h
    cases hp : processKey s sp e with
    | none => rw [hp] at h; simp at h
    | some p =>
      rw [hp] at h
      simp only [Option.some_bind] at h
      obtain ⟨q1, q2, q3, q4⟩ := processKey_preserves s sp e p hp
      obtain ⟨r1, r2, r3, r4⟩ := ih p.1 p.2 s1 sp1 h
      exact ⟨r1.trans q1, r2.trans q2, r3.trans q3, r4.trans q4⟩

lemma update_direction_preserves (s : Snake) :
    s.update_direction.positions = s.positions ∧
    s.update_direction.length = s.length ∧
    s.update_direction.last = s.last := by
  cases hnd : s.next_direction <;> simp [Snake.update_direction, hnd]

lemma move_length_eq (s s2 : Snake) (h : s.move = some s2) : s2.length = s.length := by
  cases hp : s.positions with
  | nil => rw [move_nil s hp] at h; exact absurd h (by simp)
  | cons h0 t0 =>
    rw [move_eq s h0 t0 hp] at h
    simp only [Option.some.injEq] at h
    subst h
    split <;> rfl

lemma move_reconciles (s s2 : Snake) (h : s.move = some s2)
    (hpre : s.positions.length = s.length ∨ s.positions.length + 1 = s.length) :
    s2.positions.length = s2.length := by
  cases hp : s.positions with
  | nil => rw [move_nil s hp] at h; exact absurd h (by simp)
  | cons h0 t0 =>
    rw [move_eq s h0 t0 hp] at h
    simp only [Option.some.injEq] at h
    subst h
    rw [hp] at hpre
    simp only [List.length_cons] at hpre
    by_cases hc : t0.length + 2 > s.length
    · rw [if_pos hc]
      simp only [List.length_dropLast, List.length_cons]
      omega
    · rw [if_neg hc]
      simp only [List.length_cons]
      omega

lemma postMove_elim (g : GameState) (i : TickIn) (g1 : GameState)
    (h : postMove g i = some g1) :
    ∃ s1 sp1, handle_keys g.snake g.speed i.events = some (s1, sp1) ∧
      s1.update_direction.move = some g1.snake ∧
      g1.applePos = g.applePos ∧ g1.staleOccupied = g.staleOccupied ∧
      g1.record_length = g.record_length ∧ g1.snake.length = g.snake.length := by
  simp only [postMove, Option.bind_eq_bind] at h
  cases hk : handle_keys g.snake g.speed i.events with
  | none => rw [hk] at h; exact absurd h (by simp)
  | some p =>
    obtain ⟨ps, pp⟩ := p
    rw [hk] at h
    simp only [Option.some_bind] at h
    cases hm : ps.update_direction.move with
    | none => rw [hm] at h; exact absurd h (by simp)
    | some s2 =>
      rw [hm] at h
      simp only [Option.some_bind, Option.pure_def, Option.some.injEq] at h
      subst h
      refine ⟨ps, pp, rfl, hm, rfl, rfl, rfl, ?_⟩
      have e1 : s2.length = ps.update_direction.length := move_length_eq _ _ hm
      have e2 := (update_direction_preserves ps).2.1
      have e3 := (handle_keys_preserves i.events g.snake g.speed ps pp hk).2.1
      exact (e1.trans e2).trans e3

lemma postMove_reconciles (g : GameState) (i : TickIn) (g1 : GameState)
    (h : postMove g i = some g1)
    (hpre : g.snake.positions.length = g.snake.length ∨
      g.snake.positions.length + 1 = g.snake.length) :
    g1.snake.positions.length = g1.snake.length := by
  obtain ⟨s1, sp1, hk, hm, _, _, _, _⟩ := postMove_elim g i g1 h
  apply move_reconciles _ _ hm
  obtain ⟨k1, k2, _, _⟩ := handle_keys_preserves i.events g.snake g.speed s1 sp1 hk
  obtain ⟨u1, u2, _⟩ := update_direction_preserves s1
  rw [u1, u2, k1, k2]
  exact hpre

lemma ateB_of_postMove (g : GameState) (i : TickIn) (g1 : GameState)
    (h : postMove g i = some g1) :
    ateB g i = decide (g1.snake.get_head_position = some g1.applePos) := by
  simp [ateB, h]

lemma collidedB_of_stages (g : GameState) (i : TickIn) (g1 g2 : GameState)
    (h1 : postMove g i = some g1) (h2 : eatStep g1 i = some g2) :
    collidedB g i = (selfCollision g2.snake).getD false := by
  simp [collidedB, h1, h2]

lemma eatStep_elim (g : GameState) (i : TickIn) (g2 : GameState)
    (h : eatStep g i = some g2) :
    (g.snake.get_head_position = some g.applePos ∧
      g2.snake = g.snake.grow ∧ g2.staleOccupied = g.staleOccupied ∧
      g2.speed = g.speed ∧
      g2.record_length = (if g.snake.length + 1 > g.record_length
        then g.snake.length + 1 else g.record_length) ∧
      randomize_position (occupiedOf g) i.eatSamples = some g2.applePos) ∨
    (g.snake.get_head_position ≠ some g.applePos ∧ g2 = g) := by
  simp only [eatStep, Option.bind_eq_bind] at h
  cases hh : g.snake.get_head_position with
  | none => rw [hh] at h; exact absurd h (by simp)
  | some hd =>
    rw [hh] at h
    simp only [Option.some_bind] at h
    by_cases he : hd = g.applePos
    · rw [if_pos he] at h
      cases hr : randomize_position (occupiedOf g) i.eatSamples with
      | none => rw [hr] at h; exact absurd h (by simp)
      | some q =>
        rw [hr] at h
        simp only [Option.some_bind, Option.pure_def, Option.some.injEq] at h
        subst h
        left
        refine ⟨by rw [he], rfl, rfl, rfl, by simp [Snake.grow], rfl⟩
    · rw [if_neg he] at h
      simp only [Option.pure_def, Option.some.injEq] at h
      subst h
      right
      exact ⟨by simp [he], rfl⟩

lemma collideStep_elim (g : GameState) (i : TickIn) (g2 : GameState)
    (h : collideStep g i = some g2) :
    g2.record_length = g.record_length ∧ g2.speed = g.speed ∧
    ((selfCollision g.snake = some true ∧
        g2.snake = g.snake.reset i.resetDir ∧
        g2.staleOccupied = some (occupiedOf g) ∧
        randomize_position (occupiedOf g) i.resetSamples = some g2.applePos) ∨
      (selfCollision g.snake = some false ∧ g2 = g)) := by
  simp only [collideStep, Option.bind_eq_bind] at h
  cases hc : selfCollision g.snake with
  | none => rw [hc] at h; exact absurd h (by simp)
  | some c =>
    rw [hc] at h
    simp only [Option.some_bind] at h
    cases c with
    | false =>
      rw [if_neg (by simp)] at h
      simp only [Option.pure_def, Option.some.injEq] at h
      subst h
      exact ⟨rfl, rfl, Or.inr ⟨rfl, rfl⟩⟩
    | true =>
      rw [if_pos rfl] at h
      cases hr : randomize_position (occupiedOf g) i.resetSamples with
      | none => rw [hr] at h; exact absurd h (by simp)
      | some q =>
        rw [hr] at h
        simp only [Option.some_bind, Option.pure_def, Option.some.injEq] at h
        subst h
        exact ⟨rfl, rfl, Or.inl ⟨rfl, rfl, rfl, rfl⟩⟩

lemma tick_elim (g : GameState) (i : TickIn) (g3 : GameState)
    (h : tick g i = some g3) :
    ∃ g1 g2, postMove g i = some g1 ∧ eatStep g1 i = some g2 ∧
      collideStep g2 i = some g3 := by
  simp only [tick, Option.bind_eq_bind] at h
  cases h1 : postMove g i with
  | none => rw [h1] at h; exact absurd h (by simp)
  | some g1 =>
    rw [h1] at h
    simp only [Option.some_bind] at h
    cases h2 : eatStep g1 i with
    | none => rw [h2] at h; exact absurd h (by simp)
    | some g2 =>
      rw [h2] at h
      simp only [Option.some_bind] at h
      exact ⟨g1, g2, rfl, h2, h⟩

lemma processKey_dir (s : Snake) (sp : Int) (e : KeyEvent) (nd : POINTER)
    (he : keyDir e = some nd) :
    processKey s sp e =
      (if (nd.1 + s.direction.1, nd.2 + s.direction.2) ≠ ((0 : Int), (0 : Int))
        then some ({ s with next_direction := some nd }, sp)
        else some (s, sp)) := by
  cases e <;> simp only [keyDir, Option.some.injEq, reduceCtorEq] at he <;>
    first
      | exact absurd he (by simp)
      | (subst he; rfl)

/-- Claim C6: for every committed direction and every requested direction
carried by a direction key, the request is stored into `pendingDirection`
iff it is not the opposite of the committed direction (the opposite request
is silently dropped, leaving the snake unchanged); the check reads the
committed `direction` (the stored `next_direction` plays no role in it);
and a later accepted request in the same drained batch overwrites an
earlier pending value. -/
theorem direction_request_filter (s : Snake) (sp : Int) (e : KeyEvent)
    (nd : POINTER) (he : keyDir e = some nd) :
    (processKey s sp e =
      some ((if nd = (-s.direction.1, -s.direction.2) then s
             else { s with next_direction := some nd }), sp)) ∧
    (∀ e2 nd2, keyDir e2 = some nd2 → nd2 ≠ (-s.direction.1, -s.direction.2) →
      handle_keys s sp [e, e2] = some ({ s with next_direction := some nd2 }, sp)) := by
  have key : ∀ (s1 : Snake), s1.direction = s.direction →
      processKey s1 sp e =
        some ((if nd = (-s.direction.1, -s.direction.2) then s1
               else { s1 with next_direction := some nd }), sp) := by
    intro s1 hdir
    rw [processKey_dir s1 sp e nd he, hdir]
    by_cases hop : nd = (-s.direction.1, -s.direction.2)
    · rw [if_neg, if_pos hop]
      obtain ⟨n1, n2⟩ := nd
      simp only [Prod.mk.injEq] at hop
      simp only [ne_eq, Prod.mk.injEq, not_and, Decidable.not_not]
      intro h1
      omega
    · rw [if_pos, if_neg hop]
      obtain ⟨n1, n2⟩ := nd
      simp only [Prod.mk.injEq] at hop
      simp only [ne_eq, Prod.mk.injEq, not_and]
      intro h1 h2
      exact hop ⟨by omega, by omega⟩
  constructor
  · exact key s rfl
  · intro e2 nd2 he2 hop2
    have step1 := key s rfl
    simp only [handle_keys, Option.bind_eq_bind, step1, Option.some_bind]
    by_cases hop : nd = (-s.direction.1, -s.direction.2)
    · rw [if_pos hop]
      have step2 : processKey s sp e2 =
          some ({ s with next_direction := some nd2 }, sp) := by
        rw [processKey_dir s sp e2 nd2 he2]
        rw [if_pos]
        intro hcontra
        apply hop2
        obtain ⟨m1, m2⟩ := nd2
        simp only [Prod.mk.injEq] at hcontra ⊢
        omega
      simp [handle_keys, step2]
    · rw [if_neg hop]
      have step2 : processKey { s with next_direction := some nd } sp e2 =
          some ({ s with next_direction := some nd2 }, sp) := by
        rw [processKey_dir { s with next_direction := some nd } sp e2 nd2 he2]
        rw [if_pos]
        intro hcontra
        apply hop2
        obtain ⟨m1, m2⟩ := nd2
        simp only [Prod.mk.injEq] at hcontra ⊢
        omega
      simp [handle_keys, step2]

/-- Witness for C6: with committed direction RIGHT, the UP request is
accepted and a later DOWN request in the same batch overwrites it. -/
theorem direction_request_filter_witness :
    keyDir KeyEvent.up = some UP ∧
    processKey snakeGrown INITIAL_SPEED KeyEvent.up =
      some ((if UP = (-snakeGrown.direction.1, -snakeGrown.direction.2) then snakeGrown
             else { snakeGrown with next_direction := some UP }), INITIAL_SPEED) ∧
    (keyDir KeyEvent.down = some DOWN ∧
      DOWN ≠ (-snakeGrown.direction.1, -snakeGrown.direction.2) ∧
      handle_keys snakeGrown INITIAL_SPEED [KeyEvent.up, KeyEvent.down] =
        some ({ snakeGrown with next_direction := some DOWN }, INITIAL_SPEED)) :=
  ⟨by decide,
    (direction_request_filter snakeGrown INITIAL_SPEED KeyEvent.up UP (by decide)).1,
    by decide, by decide,
    (direction_request_filter snakeGrown INITIAL_SPEED KeyEvent.up UP (by decide)).2
      KeyEvent.down DOWN (by decide) (by decide)⟩

/-- Counterexample to claim C2: start `main` with the snake at the center
heading RIGHT and the apple drawn at (340, 240); after one complete tick the
snake has eaten, so `len(body) = 1` while `length = 2` — the invariant
`len(body) == length` does NOT hold at the end of the tick on which food is
consumed (the body catches up only on the next move). -/
theorem tick_length_counterexample :
    ((initGame RIGHT [(340, 240)]).bind (fun g => tick g eatTick)).map
        (fun g => (g.snake.positions.length, g.snake.length)) = some (1, 2) ∧
    ((initGame RIGHT [(340, 240)]).bind (fun g => tick g eatTick)).map
        (fun g => decide (g.snake.positions.length = g.snake.length)) = some false := by
  decide

/-- Claim C2 as amended: after each complete tick of the game loop,
`len(body) == length` holds EXCEPT on a tick that consumes food without a
same-tick reset, where `len(body) + 1 == length`; the body is reconciled by
the next tick's `move()` (second conjunct applied to a state entering with
`len(body) + 1 == length`).  The hypothesis is the invariant every
reachable tick entry satisfies — `main` starts with both equal to 1, and
the third conjunct re-establishes it at every tick exit, so the theorem
chains along entire runs, eating ticks and their catch-up ticks included. -/
theorem tick_length_invariant (g : GameState) (i : TickIn) (g3 : GameState)
    (hpre : g.snake.positions.length = g.snake.length ∨
      g.snake.positions.length + 1 = g.snake.length)
    (ht : tick g i = some g3) :
    (ateB g i = true ∧ collidedB g i = false →
      g3.snake.positions.length + 1 = g3.snake.length) ∧
    (¬(ateB g i = true ∧ collidedB g i = false) →
      g3.snake.positions.length = g3.snake.length) ∧
    (g3.snake.positions.length = g3.snake.length ∨
      g3.snake.positions.length + 1 = g3.snake.length) := by
  have main : (ateB g i = true ∧ collidedB g i = false →
      g3.snake.positions.length + 1 = g3.snake.length) ∧
    (¬(ateB g i = true ∧ collidedB g i = false) →
      g3.snake.positions.length = g3.snake.length) := by
    obtain ⟨g1, g2, h1, h2, h3⟩ := tick_elim g i g3 ht
    have hrec1 : g1.snake.positions.length = g1.snake.length :=
      postMove_reconciles g i g1 h1 hpre
    have hAeq := ateB_of_postMove g i g1 h1
    have hCeq := collidedB_of_stages g i g1 g2 h1 h2
    obtain ⟨_, _, Hc⟩ := collideStep_elim g2 i g3 h3
    rcases eatStep_elim g1 i g2 h2 with ⟨he, hsn, _, _, _, _⟩ | ⟨he, heq⟩
    · have hA : ateB g i = true := by rw [hAeq]; exact decide_eq_true he
      rcases Hc with ⟨hcol, hres, _, _⟩ | ⟨hcol, heq3⟩
      · have hC : collidedB g i = true := by rw [hCeq, hcol]; rfl
        refine ⟨fun hcon => absurd hC (by simp [hcon.2]), fun _ => ?_⟩
        rw [hres, Snake.reset]
        rfl
      · have hC : collidedB g i = false := by rw [hCeq, hcol]; rfl
        subst heq3
        refine ⟨fun _ => ?_, fun hcon => absurd (And.intro hA hC) hcon⟩
        rw [hsn]
        simp only [Snake.grow]
        omega
    · subst heq
      have hA : ateB g i = false := by
        rw [hAeq]
        exact decide_eq_false he
      rcases Hc with ⟨hcol, hres, _, _⟩ | ⟨hcol, heq3⟩
      · refine ⟨fun hcon => absurd hA (by simp [hcon.1]), fun _ => ?_⟩
        rw [hres, Snake.reset]
        rfl
      · subst heq3
        exact ⟨fun hcon => absurd hA (by simp [hcon.1]), fun _ => hrec1⟩
  refine ⟨main.1, main.2, ?_⟩
  by_cases hcond : ateB g i = true ∧ collidedB g i = false
  · right
    have hcatch := main.1 hcond
    omega
  · left
    exact main.2 hcond

/-- Witness for the amended C2 at the catch-up case: a tick entered with
`len(body) + 1 == length` (the state an eating tick leaves behind) ends
with the body caught up to `length`. -/
theorem tick_length_invariant_witness :
    (gameB.snake.positions.length = gameB.snake.length ∨
      gameB.snake.positions.length + 1 = gameB.snake.length) ∧
    tick gameB quietTick = some gameB1 ∧
    ((ateB gameB quietTick = true ∧ collidedB gameB quietTick = false →
        gameB1.snake.positions.length + 1 = gameB1.snake.length) ∧
      (¬(ateB gameB quietTick = true ∧ collidedB gameB quietTick = false) →
        gameB1.snake.positions.length = gameB1.snake.length) ∧
      (gameB1.snake.positions.length = gameB1.snake.length ∨
        gameB1.snake.positions.length + 1 = gameB1.snake.length)) :=
  ⟨by decide, by decide,
    tick_length_invariant gameB quietTick gameB1 (by decide) (by decide)⟩

lemma tick_step_props (g : GameState) (i : TickIn) (g3 : GameState)
    (h : tick g i = some g3) :
    g3.record_length =
      (if ateB g i = true ∧ g.snake.length + 1 > g.record_length
        then g.snake.length + 1 else g.record_length) ∧
    (g3.snake.length = 1 ∨
      g3.snake.length =
        (if ateB g i = true then g.snake.length + 1 else g.snake.length)) := by
  obtain ⟨g1, g2, h1, h2, h3⟩ := tick_elim g i g3 h
  obtain ⟨s1, sp1, _, _, hap, hst, hrec, hlen⟩ := postMove_elim g i g1 h1
  have hAeq := ateB_of_postMove g i g1 h1
  obtain ⟨hc3rec, _, Hc⟩ := collideStep_elim g2 i g3 h3
  rcases eatStep_elim g1 i g2 h2 with ⟨he, hsn, _, _, hr2, _⟩ | ⟨he, heq⟩
  · have hA : ateB g i = true := by rw [hAeq]; exact decide_eq_true he
    constructor
    · rw [hc3rec, hr2, hrec, hlen]
      simp [hA]
    · rcases Hc with ⟨_, hres, _, _⟩ | ⟨_, heq3⟩
      · left
        rw [hres]
        rfl
      · right
        subst heq3
        rw [hsn]
        simp only [Snake.grow, hA, if_true]
        omega
  · have hA : ateB g i = false := by rw [hAeq]; exact decide_eq_false he
    subst heq
    constructor
    · rw [hc3rec, hrec]
      simp [hA]
    · rcases Hc with ⟨_, hres, _, _⟩ | ⟨_, heq3⟩
      · left
        rw [hres]
        rfl
      · right
        subst heq3
        simp [hA, hlen]

lemma tick_record_max (g : GameState) (i : TickIn) (g3 : GameState)
    (h : tick g i = some g3)
    (h1l : 1 ≤ g.record_length) (hinv : g.snake.length ≤ g.record_length) :
    g3.record_length = max g.record_length (grownLength g i) ∧
    1 ≤ g3.record_length ∧ g3.snake.length ≤ g3.record_length := by
  obtain ⟨hrec, hlen⟩ := tick_step_props g i g3 h
  unfold grownLength
  cases hA : ateB g i
  · rw [hA] at hrec hlen
    simp only [Bool.false_eq_true, false_and, if_false] at hrec hlen ⊢
    rcases hlen with hl | hl <;> refine ⟨by omega, by omega, by omega⟩
  · rw [hA] at hrec hlen
    simp only [true_and, if_true] at hrec hlen ⊢
    by_cases hcmp : g.snake.length + 1 > g.record_length
    · rw [if_pos hcmp] at hrec
      rcases hlen with hl | hl <;> refine ⟨by omega, by omega, by omega⟩
    · rw [if_neg hcmp] at hrec
      rcases hlen with hl | hl <;> refine ⟨by omega, by omega, by omega⟩

lemma run_traceMax (ins : List TickIn) :
    ∀ g g2 : GameState, 1 ≤ g.record_length → g.snake.length ≤ g.record_length →
      run g ins = some g2 → traceMax g g.record_length ins = some g2.record_length := by
  induction ins with
  | nil =>
    intro g g2 _ _ h
    simp only [run, Option.some.injEq] at h
    subst h
    rfl
  | cons i rest ih =>
    intro g g2 h1 h2 h
    simp only [run, Option.bind_eq_bind] at h
    cases ht : tick g i with
    | none => rw [ht] at h; exact absurd h (by simp)
    | some g1 =>
      rw [ht] at h
      simp only [Option.some_bind] at h
      obtain ⟨hrec, hl1, hl2⟩ := tick_record_max g i g1 ht h1 h2
      simp only [traceMax, Option.bind_eq_bind, ht, Option.some_bind]
      rw [← hrec]
      exact ih g1 g2 hl1 hl2 h

/-- Claim C9: `record_length` is monotonically non-decreasing across ticks;
each tick updates it to the post-growth length exactly when that length
exceeds it (independently of whether a reset also fires that tick, so the
reset transition preserves it); and along any run that starts with
`length ≤ record_length` and `1 ≤ record_length` (as `main` does, with both
equal to 1), the final record equals the running maximum of all post-growth
lengths ever reached, seeded with the starting record. -/
theorem record_length_props :
    (∀ (g : GameState) (i : TickIn) (g2 : GameState), tick g i = some g2 →
      g.record_length ≤ g2.record_length) ∧
    (∀ (g : GameState) (i : TickIn) (g2 : GameState), tick g i = some g2 →
      g2.record_length =
        (if ateB g i = true ∧ g.snake.length + 1 > g.record_length
          then g.snake.length + 1 else g.record_length)) ∧
    (∀ (g : GameState) (i : TickIn) (g2 : GameState), collideStep g i = some g2 →
      g2.record_length = g.record_length) ∧
    (∀ (ins : List TickIn) (g g2 : GameState),
      1 ≤ g.record_length → g.snake.length ≤ g.record_length →
      run g ins = some g2 →
      traceMax g g.record_length ins = some g2.record_length) := by
  refine ⟨?_, ?_, ?_, ?_⟩
  · intro g i g2 h
    rw [(tick_step_props g i g2 h).1]
    split <;> omega
  · intro g i g2 h
    exact (tick_step_props g i g2 h).1
  · intro g i g2 h
    exact (collideStep_elim g i g2 h).1
  · intro ins g g2 h1 h2 h
    exact run_traceMax ins g g2 h1 h2 h

/-- Witness for C9: one quiet tick from `gameA` leaves the record at its
running maximum 1. -/
theorem record_length_props_witness :
    (1 ≤ gameA.record_length ∧ gameA.snake.length ≤ gameA.record_length ∧
      run gameA [quietTick] = some gameA1) ∧
    traceMax gameA gameA.record_length [quietTick] = some gameA1.record_length :=
  ⟨⟨by decide, by decide, by decide⟩,
    record_length_props.2.2.2 [quietTick] gameA gameA1 (by decide) (by decide) (by decide)⟩

/-- Claim C1 refuted on the code (code bug): along a reachable run of
`main` — start at the center heading RIGHT, apple drawn at (340, 240),
then the `bugInputs` schedule — the tick that resets after self-collision
relocates the apple against the apple's stale `occupied_positions`
reference (the pre-reset body list, detached when `reset` rebinds
`self.positions`), so the draw (320, 240) — a legal
`randint` outcome, cell (16, 12) — is accepted even though it is exactly
the post-reset snake's only body cell: the final state has the food ON the
snake.  The invariant claimed by C1 therefore fails after the
self-collision recovery path. -/
theorem food_on_snake_after_reset :
    ((initGame RIGHT [(340, 240)]).bind (fun g => run g bugInputs)).map
        (fun g => (foodOnSnake g, g.applePos, g.snake.positions)) =
      some (true, (320, 240), [(320, 240)]) ∧
    ((320 : Int), (240 : Int)) = ((16 : Int) * GRID_SIZE, (12 : Int) * GRID_SIZE) := by
  decide
